import Mathlib

/-!
Verification of the sonique audio-fingerprinting engine.

This file gives a shallow embedding of the fingerprint generation and
matching code of the repository:

* `src/backend/engine/fingerprinting.py` (`generate_hashes`, `create_hash`)
* `src/backend/pipeline/match.py` (`match`, `get_song_details`)
* `src/backend/pipeline/db.py` (`get_all_fingerprints`, `get_song`,
  `save_fingerprints_batch`)
* `src/backend/pipeline/load.py` (the ingestion row construction)

Modelling conventions.  Peak times and frequency bins are natural numbers:
the Python code bit-ors the time delta into an integer hash, and truncates
the anchor time with `int(...)`, so the code only functions on integral
frequency bins and integral (frame-unit) times; on naturals `int(...)` is
the identity.  Python floats are modelled by exact rationals (`round(x, 2)`
becomes exact round-half-to-even at two decimals).  The sqlite store is
modelled by an explicit table of rows together with boolean/optional
failure knobs standing for the `sqlite3.Error` paths that the Python code
catches.  Python's `hex` builtin is modelled exactly: a lowercase
hexadecimal rendering prefixed with `0x` and no leading zeroes.
-/

/-- A spectrogram landmark `(frequency_bin, time, magnitude)` as consumed by
`generate_hashes` (`peaks` entries are unpacked as `freq, time, mag`). -/
structure Peak where
  freq : Nat
  time : Nat
  mag : Nat
deriving DecidableEq

/-- The integer computed inside `create_hash` (fingerprinting.py lines 40-46):
clamp each field, then `(freq1 << 18) | (freq2 << 8) | time_delta`. -/
def create_hash_int (freq1 freq2 time_delta : Nat) : Nat :=
  let f1 := min freq1 (2 ^ 10 - 1)
  let f2 := min freq2 (2 ^ 10 - 1)
  let td := min time_delta (2 ^ 8 - 1)
  (f1 <<< 18) ||| (f2 <<< 8) ||| td

/-- One lowercase hexadecimal digit, as produced by Python's `hex`. -/
def hexDigit : Nat → Char
  | 0 => '0'
  | 1 => '1'
  | 2 => '2'
  | 3 => '3'
  | 4 => '4'
  | 5 => '5'
  | 6 => '6'
  | 7 => '7'
  | 8 => '8'
  | 9 => '9'
  | 10 => 'a'
  | 11 => 'b'
  | 12 => 'c'
  | 13 => 'd'
  | 14 => 'e'
  | _ => 'f'

/-- Hex digit list of a positive number, most significant first.  The first
argument is fuel (`n` itself always suffices, since `n / 16 < n`). -/
def toHexAux : Nat → Nat → List Char
  | 0, _ => []
  | _ + 1, 0 => []
  | fuel + 1, n + 1 => toHexAux fuel ((n + 1) / 16) ++ [hexDigit ((n + 1) % 16)]

/-- Python's `hex` builtin on a nonnegative integer: `0x` followed by the
lowercase hexadecimal digits, `hex(0) = "0x0"`. -/
def pyHex (n : Nat) : String :=
  ⟨'0' :: 'x' :: (if n = 0 then ['0'] else toHexAux n n)⟩

/-- `create_hash` (fingerprinting.py lines 36-48): clamp the three fields to
10/10/8 bits, bit-pack them, and return `hex(hash_int)` — a string. -/
def create_hash (freq1 freq2 time_delta : Nat) : String :=
  pyHex (create_hash_int freq1 freq2 time_delta)

/-- Stable insertion of a peak into a time-sorted list: an inserted element
goes before strictly later peaks and after peaks with the same time. -/
def insertByTime (p : Peak) : List Peak → List Peak
  | [] => [p]
  | q :: l => if p.time ≤ q.time then p :: q :: l else q :: insertByTime p l

/-- `sorted(peaks, key=lambda x: x[1])`: the stable sort of the peaks by
time.  All stable sorts by a fixed key agree, so insertion sort is a
faithful model of Python's `sorted`. -/
def sortByTime : List Peak → List Peak
  | [] => []
  | p :: l => insertByTime p (sortByTime l)

/-- The inner target loop of `generate_hashes` for one anchor: walk the
peaks after the anchor, stop once the remaining fanout budget is exhausted
or a target lies more than `max_time_delta` after the anchor, and emit
`(create_hash(anchor_freq, target_freq, time_delta), anchor_time)` for each
target (the Python appends `int(anchor_time)`, the identity on naturals). -/
def pairTargets (anchor : Peak) (fanout maxTimeDelta : Nat) : List Peak → List (String × Nat)
  | [] => []
  | t :: rest =>
    if fanout = 0 then []
    else if maxTimeDelta < t.time - anchor.time then []
    else (create_hash anchor.freq t.freq (t.time - anchor.time), anchor.time)
      :: pairTargets anchor (fanout - 1) maxTimeDelta rest

/-- The outer anchor loop of `generate_hashes` over the time-sorted peaks:
every peak is an anchor for the peaks after it. -/
def hashList : List Peak → Nat → Nat → List (String × Nat)
  | [], _, _ => []
  | a :: rest, fanout, maxTimeDelta =>
    pairTargets a fanout maxTimeDelta rest ++ hashList rest fanout maxTimeDelta

/-- `generate_hashes(peaks, track_id, fanout=7, max_time_delta=5)`
(fingerprinting.py lines 3-34): returns the list of `(hash, anchor_time)`
pairs together with the untouched `track_id`. -/
def generate_hashes (peaks : List Peak) (track_id : Option String)
    (fanout : Nat := 7) (maxTimeDelta : Nat := 5) :
    List (String × Nat) × Option String :=
  (hashList (sortByTime peaks) fanout maxTimeDelta, track_id)

/-- A row of the sqlite `Songs` table (db.py lines 13-19): the schema stores
`hash_time` as FLOAT and `hash_value` as VARCHAR, but every stored time is
the `int(anchor_time)` emitted by `generate_hashes`, hence a natural. -/
structure SongRow where
  spotify_ID : String
  youtube_ID : String
  hash_time : Nat
  hash_value : String
deriving DecidableEq

/-- A row of `SELECT spotify_ID, hash_value, hash_time FROM Songs` as
returned by `get_all_fingerprints` (db.py line 171). -/
structure FpRow where
  spotify_ID : String
  hash_value : String
  hash_time : Nat
deriving DecidableEq

/-- The metadata dictionary produced by the external spotify lookup
collaborator for a track id (all six keys present on success). -/
structure SpotifyMeta where
  title : String
  artists : String
  cover : String
  album_name : String
  release_date : String
  duration_ms : String
deriving DecidableEq

/-- The dictionary built by `get_song_details` (match.py lines 37-46). -/
structure SongDetails where
  spotify_ID : String
  youtube_ID : String
  title : String
  artists : String
  cover : String
  album_name : String
  release_date : String
  duration_ms : String
deriving DecidableEq

/-- One entry of the list returned by `match` (match.py lines 119-122). -/
structure MatchResult where
  song_details : SongDetails
  confidence : ℚ
deriving DecidableEq

/-- `get_all_fingerprints` (db.py lines 169-188): read every row of the
`Songs` table projected to three columns; on any `sqlite3.Error` the
exception is caught, logged, and the empty list is returned.  `readOk`
models whether the sqlite read raises. -/
def get_all_fingerprints (table : List SongRow) (readOk : Bool) : List FpRow :=
  if readOk then table.map (fun r => ⟨r.spotify_ID, r.hash_value, r.hash_time⟩) else []

/-- `SELECT ... FROM Songs WHERE spotify_ID = ? LIMIT 1` (db.py line 136):
the first table row carrying the given spotify id. -/
def findRow : List SongRow → String → Option SongRow
  | [], _ => none
  | r :: rs, sid => if r.spotify_ID = sid then some r else findRow rs sid

/-- `get_song` (db.py lines 127-167): look up the track row; if absent
return `None`; otherwise call the external spotify metadata lookup, and if
it raises, fall back to `metadata = {}` so every `metadata.get(key, "")`
yields the empty string.  `metaLookup` models `spotify_parser`, with `none`
standing for a raised exception. -/
def get_song (table : List SongRow) (metaLookup : String → Option SpotifyMeta)
    (spotify_id : String) : Option SongDetails :=
  match findRow table spotify_id with
  | none => none
  | some row =>
    let m := (metaLookup row.spotify_ID).getD ⟨"", "", "", "", "", ""⟩
    some ⟨row.spotify_ID, row.youtube_ID, m.title, m.artists, m.cover,
      m.album_name, m.release_date, m.duration_ms⟩

/-- `get_song_details` (match.py lines 31-46): `None` stays `None` (an
8-tuple is always truthy in Python), and the tuple is repackaged as a
dictionary with the same eight fields in the same order. -/
def get_song_details (table : List SongRow) (metaLookup : String → Option SpotifyMeta)
    (spotify_id : String) : Option SongDetails :=
  get_song table metaLookup spotify_id

/-- The dict comprehension `{h: t for h, t in input_fingerprints}`
(match.py line 86): later entries overwrite earlier ones, so the mapping
returns the time of the last entry holding the hash. -/
def dictOf : List (String × Nat) → String → Option Nat
  | [], _ => none
  | p :: rest, h =>
    match dictOf rest h with
    | some t => some t
    | none => if h = p.1 then some p.2 else none

/-- The keys of `db_fingerprints_by_song` in insertion order (match.py
lines 90-95): distinct spotify ids in order of first appearance.  The
accumulator holds the ids already seen. -/
def firstKeys : List FpRow → List String → List String
  | [], _ => []
  | r :: rs, seen =>
    if r.spotify_ID ∈ seen then firstKeys rs seen
    else r.spotify_ID :: firstKeys rs (r.spotify_ID :: seen)

/-- Distinct spotify ids of the fetched fingerprints, first appearance
first, matching Python dict key order. -/
def distinctSids (db : List FpRow) : List String :=
  firstKeys db []

/-- `db_fingerprints_by_song[spotify_id]` (match.py lines 90-95): the
`(hash_value, hash_time)` pairs of one track, in table order. -/
def songFps (db : List FpRow) (sid : String) : List (String × Nat) :=
  db.filterMap (fun r => if r.spotify_ID = sid then some (r.hash_value, r.hash_time) else none)

/-- The `time_offsets` loop (match.py lines 106-110): one offset
`db_time - input_time` per track posting whose hash is a key of the query
dict. -/
def song_offsets (dict : String → Option Nat) (fps : List (String × Nat)) : List Int :=
  fps.filterMap (fun p => (dict p.1).map (fun it => (p.2 : Int) - (it : Int)))

/-- Distinct elements of a list of offsets in first-occurrence order
(`collections.Counter` key order); the accumulator holds seen values. -/
def dedupIntAux : List Int → List Int → List Int
  | [], _ => []
  | x :: l, seen =>
    if x ∈ seen then dedupIntAux l seen else x :: dedupIntAux l (x :: seen)

/-- The items of `Counter(time_offsets)` in insertion order: each distinct
offset with its multiplicity. -/
def counterItems (l : List Int) : List (Int × Nat) :=
  (dedupIntAux l []).map (fun x => (x, l.count x))

/-- One step of selecting the maximal-count counter item: keep the earlier
item unless the new one has a strictly larger count. -/
def pickLarger (acc : Option (Int × Nat)) (it : Int × Nat) : Option (Int × Nat) :=
  match acc with
  | none => some it
  | some b => if b.2 < it.2 then some it else some b

/-- `Counter(...).most_common(1)[0]`: `heapq.nlargest(1, items, key=count)`
returns the first-encountered item of maximal count (it is documented to
agree with a stable descending sort). -/
def mostCommon1 (items : List (Int × Nat)) : Option (Int × Nat) :=
  items.foldl pickLarger none

/-- `num_matches` (match.py line 113): the count of the most frequent
offset (0 for an empty offset list, a case the caller guards against). -/
def support_of (offs : List Int) : Nat :=
  match mostCommon1 (counterItems offs) with
  | some p => p.2
  | none => 0

/-- `confidence = (num_matches / len(input_fingerprints)) * 100 if
len(input_fingerprints) > 0 else 0` (match.py line 114), as an exact
rational. -/
def raw_confidence (support n : Nat) : ℚ :=
  if 0 < n then (support : ℚ) / (n : ℚ) * 100 else 0

/-- Round-half-to-even to an integer, the rounding rule of Python's
`round` (float representation error is not modelled). -/
def roundHalfEven (q : ℚ) : ℤ :=
  let f := Rat.floor q
  if q - (f : ℚ) < 1 / 2 then f
  else if 1 / 2 < q - (f : ℚ) then f + 1
  else if f % 2 = 0 then f else f + 1

/-- Python's `round(x, 2)`: round-half-to-even at two decimal places. -/
def pyRound2 (q : ℚ) : ℚ :=
  (roundHalfEven (q * 100) : ℚ) / 100

/-- Stable insertion for the final `results.sort(key=..., reverse=True)`:
a result goes before strictly smaller confidences and, being earlier in the
unsorted list, before equal ones (Python's sort is stable). -/
def insertByConf (r : MatchResult) : List MatchResult → List MatchResult
  | [] => [r]
  | s :: l => if s.confidence ≤ r.confidence then r :: s :: l else s :: insertByConf r l

/-- `results.sort(key=lambda x: x["confidence"], reverse=True)` (match.py
line 124): stable descending sort by confidence. -/
def sortByConfDesc : List MatchResult → List MatchResult
  | [] => []
  | r :: l => insertByConf r (sortByConfDesc l)

/-- The candidate loop body of `match` (match.py lines 105-122) for one
spotify id: skip the track when no posting hash occurs in the query dict,
otherwise score it and attach the metadata, dropping the track when
`get_song_details` returns `None`. -/
def scoreSong (inputFps : List (String × Nat)) (table : List SongRow)
    (metaLookup : String → Option SpotifyMeta) (db : List FpRow) (sid : String) :
    Option MatchResult :=
  let offs := song_offsets (dictOf inputFps) (songFps db sid)
  if offs.isEmpty then none
  else
    match get_song_details table metaLookup sid with
    | none => none
    | some sd => some ⟨sd, pyRound2 (raw_confidence (support_of offs) inputFps.length)⟩

/-- The pure core of `match` (match.py lines 64-126), starting after the
query fingerprints have been produced: fetch all fingerprints (an empty or
unreadable store returns `[]` at once), group them by track, score each
track by its dominant time offset, decorate with metadata, and sort by
descending confidence. -/
def match_core (inputFps : List (String × Nat)) (table : List SongRow)
    (readOk : Bool) (metaLookup : String → Option SpotifyMeta) : List MatchResult :=
  if (get_all_fingerprints table readOk).isEmpty then []
  else sortByConfDesc ((distinctSids (get_all_fingerprints table readOk)).filterMap
    (scoreSong inputFps table metaLookup (get_all_fingerprints table readOk)))

/-- The ingestion row construction (load.py lines 64-72): each generated
`(hash, time)` pair becomes a `Songs` row for the track. -/
def fingerprint_rows (track_id youtube_id : String) (fps : List (String × Nat)) :
    List SongRow :=
  fps.map (fun p => ⟨track_id, youtube_id, p.2, p.1⟩)

/-- `cursor.executemany` of the batch insert (db.py line 87) inside the
open transaction: rows are appended one at a time; `failAt = some k` means
the sqlite driver raises while inserting the row of index `k`, leaving the
uncommitted intermediate state (carried in the `error` case). -/
def executemany : List SongRow → List SongRow → Option Nat → Except (List SongRow) (List SongRow)
  | st, [], _ => .ok st
  | st, _ :: _, some 0 => .error st
  | st, r :: rs, some (k + 1) => executemany (st ++ [r]) rs (some k)
  | st, r :: rs, none => executemany (st ++ [r]) rs none

/-- `save_fingerprints_batch` (db.py lines 64-97): empty batches return 0;
a failed connection returns 0 leaving the store untouched; otherwise the
rows are inserted in one transaction, committed on success (returning the
batch size), and rolled back to the pre-call state on a sqlite error
(returning 0).  The result pairs the store state after the call with the
returned count. -/
def save_fingerprints_batch (st : List SongRow) (fingerprints : List SongRow)
    (connOk : Bool) (failAt : Option Nat) : List SongRow × Nat :=
  if fingerprints.isEmpty then (st, 0)
  else if !connOk then (st, 0)
  else
    match executemany st fingerprints failAt with
    | .ok st2 => (st2, fingerprints.length)
    | .error _ => (st, 0)

/-- Value of a lowercase hexadecimal digit character. -/
def hexDigitVal : Char → Nat
  | '1' => 1
  | '2' => 2
  | '3' => 3
  | '4' => 4
  | '5' => 5
  | '6' => 6
  | '7' => 7
  | '8' => 8
  | '9' => 9
  | 'a' => 10
  | 'b' => 11
  | 'c' => 12
  | 'd' => 13
  | 'e' => 14
  | 'f' => 15
  | _ => 0

/-- Accumulating hexadecimal parse of a digit list, most significant
first. -/
def parseHexChars : List Char → Nat → Nat
  | [], acc => acc
  | c :: cs, acc => parseHexChars cs (acc * 16 + hexDigitVal c)

/-- Parse a `0x`-prefixed hexadecimal string back to a natural (the
inverse of `pyHex`). -/
def parseHex (s : String) : Nat :=
  parseHexChars (s.data.drop 2) 0

/-- Unpacking a produced hash according to the known 10/10/8 bit layout:
decode the hexadecimal code, then read the anchor frequency bin off the top
10 bits, the target frequency bin off the next 10 and the time delta off
the bottom 8. -/
def unpack_hash (s : String) : Nat × Nat × Nat :=
  let n := parseHex s
  (n >>> 18, (n >>> 8) % 2 ^ 10, n % 2 ^ 8)

/-- Specification-side count of hashes anchored per peak: each anchor of
the time-sorted list contributes `min fanout w` entries, where `w` is the
number of immediately following peaks within the time window. -/
def anchorCounts : List Peak → Nat → Nat → Nat
  | [], _, _ => 0
  | a :: rest, fanout, maxTimeDelta =>
    min fanout ((rest.takeWhile (fun t => t.time - a.time ≤ maxTimeDelta)).length)
      + anchorCounts rest fanout maxTimeDelta

/-- Maximum of a list of naturals (0 for the empty list). -/
def listMax (l : List Nat) : Nat :=
  l.foldr max 0

/-- The multiplicity of the most frequent element of `l`: the
specification's "occurrence count of the single most frequent
time-offset". -/
def maxMult (l : List Int) : Nat :=
  listMax (l.map (fun x => l.count x))

theorem shiftLeft_lor_eq_add {k x y : Nat} (hy : y < 2 ^ k) :
    (x <<< k) ||| y = x * 2 ^ k + y := by
  apply Nat.eq_of_testBit_eq
  intro i
  rw [Nat.testBit_or, Nat.testBit_shiftLeft,
    Nat.mul_comm x (2 ^ k), Nat.testBit_mul_pow_two_add x hy i]
  by_cases h : i < k
  · simp [h, Nat.not_le.mpr h]
  · have hk : k ≤ i := Nat.le_of_not_lt h
    have hyi : Nat.testBit y i = false :=
      Nat.testBit_lt_two_pow (lt_of_lt_of_le hy (Nat.pow_le_pow_right (by omega) hk))
    simp [h, hk, hyi]

theorem create_hash_int_eq (f1 f2 d : Nat) :
    create_hash_int f1 f2 d =
      min f1 1023 * 2 ^ 18 + min f2 1023 * 2 ^ 8 + min d 255 := by
  have hb : min f2 1023 <<< 8 < 2 ^ 18 := by
    rw [Nat.shiftLeft_eq]
    have : min f2 1023 ≤ 1023 := Nat.min_le_right _ _
    omega
  have hc : min d 255 < 2 ^ 8 := by
    have : min d 255 ≤ 255 := Nat.min_le_right _ _
    omega
  show (min f1 (2 ^ 10 - 1) <<< 18) ||| (min f2 (2 ^ 10 - 1) <<< 8) ||| min d (2 ^ 8 - 1)
      = _
  norm_num only
  rw [shiftLeft_lor_eq_add hb]
  have h2 : min f1 1023 * 2 ^ 18 + min f2 1023 <<< 8
      = (min f1 1023 * 2 ^ 10 + min f2 1023) <<< 8 := by
    rw [Nat.shiftLeft_eq, Nat.shiftLeft_eq]; ring
  rw [Nat.shiftLeft_eq] at h2 ⊢
  rw [h2, shiftLeft_lor_eq_add hc]
  ring

theorem hexDigitVal_hexDigit {m : Nat} (h : m < 16) : hexDigitVal (hexDigit m) = m := by
  interval_cases m <;> rfl

theorem parseHexChars_append_digit (cs : List Char) (c : Char) (acc : Nat) :
    parseHexChars (cs ++ [c]) acc = parseHexChars cs acc * 16 + hexDigitVal c := by
  induction cs generalizing acc with
  | nil => rfl
  | cons d ds ih => simpa [parseHexChars] using ih (acc * 16 + hexDigitVal d)

theorem parseHexChars_toHexAux (fuel : Nat) :
    ∀ n acc, n ≤ fuel →
      parseHexChars (toHexAux fuel n) acc = acc * 16 ^ (toHexAux fuel n).length + n := by
  induction fuel with
  | zero =>
    intro n acc hn
    have : n = 0 := Nat.le_zero.mp hn
    subst this
    simp [toHexAux, parseHexChars]
  | succ fuel ih =>
    intro n acc hn
    match n with
    | 0 => simp [toHexAux, parseHexChars]
    | m + 1 =>
      have hrec : (m + 1) / 16 ≤ fuel := by
        have := Nat.div_lt_self (Nat.succ_pos m) (by omega : 1 < 16)
        omega
      rw [toHexAux, parseHexChars_append_digit,
        ih ((m + 1) / 16) acc hrec,
        hexDigitVal_hexDigit (Nat.mod_lt _ (by omega))]
      rw [List.length_append, List.length_cons, List.length_nil]
      have := Nat.div_add_mod (m + 1) 16
      rw [pow_succ]
      ring_nf
      omega

theorem parseHex_pyHex (n : Nat) : parseHex (pyHex n) = n := by
  by_cases h : n = 0
  · subst h; rfl
  · show parseHexChars ((List.drop 2 ('0' :: 'x' :: (if n = 0 then ['0'] else toHexAux n n)))) 0 = n
    rw [if_neg h]
    simpa using parseHexChars_toHexAux n n 0 (le_refl n)

/-- C2 (corrected): as amended — for every anchor/target frequency pair and
time delta, `create_hash` produces the lowercase `0x`-prefixed hexadecimal
string rendering of a single 28-bit integer with the fixed layout: the
(clamped) anchor frequency bin in the top 10 bits, the (clamped) target
frequency bin in the next 10 bits and the (clamped) time delta in the
bottom 8 bits, giving 2^28 distinct codes.  Ingestion (load.py) and query
(match.py) both obtain hashes from the same `generate_hashes`/`create_hash`
functions, so the layout is identical on both paths. -/
theorem C2_bit_layout (f1 f2 d : Nat) :
    ∃ n : Nat, n < 2 ^ 28 ∧ create_hash f1 f2 d = pyHex n ∧
      n / 2 ^ 18 = min f1 1023 ∧ n / 2 ^ 8 % 2 ^ 10 = min f2 1023 ∧
      n % 2 ^ 8 = min d 255 := by
  refine ⟨create_hash_int f1 f2 d, ?_, rfl, ?_, ?_, ?_⟩ <;>
    · rw [create_hash_int_eq]
      have h1 : min f1 1023 ≤ 1023 := Nat.min_le_right _ _
      have h2 : min f2 1023 ≤ 1023 := Nat.min_le_right _ _
      have h3 : min d 255 ≤ 255 := Nat.min_le_right _ _
      omega

/-- C2 (counterexample): the claim calls the produced hash "a single
fixed-width integer", but `create_hash` returns `hex(hash_int)` — the
hexadecimal string `"0x40203"` for the triple `(1, 2, 3)`, which is not the
numeral of the packed integer `create_hash_int 1 2 3 = 262659`. -/
theorem C2_counterexample :
    create_hash 1 2 3 = "0x40203" ∧
      create_hash 1 2 3 ≠ Nat.repr (create_hash_int 1 2 3) := by
  constructor
  · rfl
  · decide

/-- C3 (confirmed): packing a triple with `create_hash` and unpacking by the
10/10/8 layout always yields the clamped triple; hence for in-range fields
the exact input triple is recovered, and for any out-of-range field the
recovered triple is the clamped one, different from the original. -/
theorem C3_roundtrip (f1 f2 d : Nat) :
    unpack_hash (create_hash f1 f2 d) = (min f1 1023, min f2 1023, min d 255) ∧
      (f1 ≤ 1023 → f2 ≤ 1023 → d ≤ 255 →
        unpack_hash (create_hash f1 f2 d) = (f1, f2, d)) ∧
      (1023 < f1 ∨ 1023 < f2 ∨ 255 < d →
        unpack_hash (create_hash f1 f2 d) ≠ (f1, f2, d)) := by
  have key : unpack_hash (create_hash f1 f2 d) = (min f1 1023, min f2 1023, min d 255) := by
    show (let n := parseHex (create_hash f1 f2 d);
      (n >>> 18, (n >>> 8) % 2 ^ 10, n % 2 ^ 8)) = _
    have hp : parseHex (create_hash f1 f2 d) = create_hash_int f1 f2 d :=
      parseHex_pyHex _
    simp only [hp, Nat.shiftRight_eq_div_pow]
    rw [create_hash_int_eq]
    have h1 : min f1 1023 ≤ 1023 := Nat.min_le_right _ _
    have h2 : min f2 1023 ≤ 1023 := Nat.min_le_right _ _
    have h3 : min d 255 ≤ 255 := Nat.min_le_right _ _
    refine Prod.ext ?_ (Prod.ext ?_ ?_) <;> simp only <;> omega
  refine ⟨key, ?_, ?_⟩
  · intro h1 h2 h3
    rw [key, Nat.min_eq_left h1, Nat.min_eq_left h2, Nat.min_eq_left h3]
  · intro h hcontra
    rw [key] at hcontra
    have e1 : min f1 1023 = f1 := congrArg Prod.fst hcontra
    have e2 : min f2 1023 = f2 := congrArg Prod.fst (congrArg Prod.snd hcontra)
    have e3 : min d 255 = d := congrArg Prod.snd (congrArg Prod.snd hcontra)
    have m1 : min f1 1023 ≤ 1023 := Nat.min_le_right _ _
    have m2 : min f2 1023 ≤ 1023 := Nat.min_le_right _ _
    have m3 : min d 255 ≤ 255 := Nat.min_le_right _ _
    omega

/-- C3 (witness): the round trip evaluated at the in-range triple
`(3, 4, 5)` and the out-of-range triple `(2000, 0, 0)`. -/
theorem C3_roundtrip_witness :
    unpack_hash (create_hash 3 4 5) = (3, 4, 5) ∧
      unpack_hash (create_hash 2000 0 0) ≠ (2000, 0, 0) :=
  ⟨(C3_roundtrip 3 4 5).2.1 (by decide) (by decide) (by decide),
    (C3_roundtrip 2000 0 0).2.2 (Or.inl (by decide))⟩

theorem pairTargets_length (a : Peak) (m : Nat) :
    ∀ (rest : List Peak) (f : Nat),
      (pairTargets a f m rest).length =
        min f ((rest.takeWhile (fun t => t.time - a.time ≤ m)).length) := by
  intro rest
  induction rest with
  | nil => intro f; simp [pairTargets]
  | cons t rs ih =>
    intro f
    cases f with
    | zero => simp [pairTargets]
    | succ g =>
      rw [pairTargets, if_neg (Nat.succ_ne_zero g)]
      by_cases h : m < t.time - a.time
      · rw [if_pos h, List.takeWhile_cons]
        have hd : (decide (t.time - a.time ≤ m)) = false := by
          rw [decide_eq_false_iff_not]; omega
        rw [hd]
        simp
      · rw [if_neg h, List.takeWhile_cons]
        have hd : (decide (t.time - a.time ≤ m)) = true := by
          rw [decide_eq_true_eq]; omega
        rw [hd]
        simp only [if_true, List.length_cons, Nat.succ_sub_one]
        rw [ih g]
        omega

theorem hashList_length (f m : Nat) :
    ∀ l : List Peak, (hashList l f m).length = anchorCounts l f m := by
  intro l
  induction l with
  | nil => rfl
  | cons a rest ih =>
    rw [hashList, anchorCounts, List.length_append, ih, pairTargets_length]

/-- C7 (corrected): as amended — the hasher's output is a *list*, not a
set: one entry is appended per admissible (anchor, target) pair, so the
output length is the total number of admissible pairs over the time-sorted
peaks (each anchor contributing `min fanout w` entries, `w` the size of its
time window), and entries with identical hash and anchor time are retained
with multiplicity, never coalesced.  Deduplication (by hash alone, last
wins) happens only when the matcher builds its query dict. -/
theorem C7_list_output (peaks : List Peak) (track_id : Option String) (fanout maxTimeDelta : Nat) :
    (generate_hashes peaks track_id fanout maxTimeDelta).1.length =
      anchorCounts (sortByTime peaks) fanout maxTimeDelta :=
  hashList_length fanout maxTimeDelta (sortByTime peaks)

/-- C7 (counterexample): on the three distinct landmarks
`(5,0,0), (5,1,1), (5,1,2)` the hasher emits the pair
`(create_hash 5 5 1, 0)` twice — identical hash and identical anchor time —
so the output is not duplicate-free, contradicting "the output never
contains duplicate (hash, anchor_time) pairs". -/
theorem C7_counterexample :
    (generate_hashes [⟨5, 0, 0⟩, ⟨5, 1, 1⟩, ⟨5, 1, 2⟩] none).1 =
        [(create_hash 5 5 1, 0), (create_hash 5 5 1, 0), (create_hash 5 5 0, 1)] ∧
      ¬ (generate_hashes [⟨5, 0, 0⟩, ⟨5, 1, 1⟩, ⟨5, 1, 2⟩] none).1.Nodup := by
  constructor
  · rfl
  · decide

theorem mem_pairTargets {a : Peak} {m : Nat} {p : String × Nat} :
    ∀ {rest : List Peak} {f : Nat}, p ∈ pairTargets a f m rest →
      ∃ t ∈ rest, p = (create_hash a.freq t.freq (t.time - a.time), a.time) := by
  intro rest
  induction rest with
  | nil => intro f h; simp [pairTargets] at h
  | cons t rs ih =>
    intro f h
    rw [pairTargets] at h
    split at h
    · simp at h
    · split at h
      · simp at h
      · rcases List.mem_cons.mp h with h1 | h2
        · exact ⟨t, List.mem_cons_self t rs, h1⟩
        · obtain ⟨u, hu, he⟩ := ih h2
          exact ⟨u, List.mem_cons_of_mem t hu, he⟩

theorem mem_hashList {p : String × Nat} {f m : Nat} :
    ∀ {l : List Peak}, p ∈ hashList l f m →
      ∃ a t, a ∈ l ∧ t ∈ l ∧
        p = (create_hash a.freq t.freq (t.time - a.time), a.time) := by
  intro l
  induction l with
  | nil => intro h; simp [hashList] at h
  | cons a rest ih =>
    intro h
    rcases List.mem_append.mp h with h1 | h2
    · obtain ⟨t, ht, he⟩ := mem_pairTargets h1
      exact ⟨a, t, List.mem_cons_self a rest, List.mem_cons_of_mem a ht, he⟩
    · obtain ⟨b, t, hb, ht, he⟩ := ih h2
      exact ⟨b, t, List.mem_cons_of_mem a hb, List.mem_cons_of_mem a ht, he⟩

theorem mem_insertByTime {x p : Peak} :
    ∀ {l : List Peak}, x ∈ insertByTime p l ↔ x = p ∨ x ∈ l := by
  intro l
  induction l with
  | nil => simp [insertByTime]
  | cons q rs ih =>
    rw [insertByTime]
    split
    · simp
    · rw [List.mem_cons, ih, List.mem_cons]
      tauto

theorem mem_sortByTime {x : Peak} :
    ∀ {l : List Peak}, x ∈ sortByTime l ↔ x ∈ l := by
  intro l
  induction l with
  | nil => simp [sortByTime]
  | cons p rs ih =>
    rw [sortByTime, mem_insertByTime, ih, List.mem_cons]

/-- C8 (confirmed): every pair emitted by the hasher is, for some anchor
landmark `a` and target landmark `t` of the input set, the pair
`(create_hash a.freq t.freq (t.time - a.time), a.time)` — its second
component is the anchor's own time (`int(anchor_time)` is the identity on
the integral frame times the code requires), never the target's. -/
theorem C8_anchor_time (peaks : List Peak) (track_id : Option String)
    (fanout maxTimeDelta : Nat) (p : String × Nat)
    (hp : p ∈ (generate_hashes peaks track_id fanout maxTimeDelta).1) :
    ∃ a t, a ∈ peaks ∧ t ∈ peaks ∧
      p.1 = create_hash a.freq t.freq (t.time - a.time) ∧ p.2 = a.time := by
  obtain ⟨a, t, ha, ht, he⟩ := mem_hashList (l := sortByTime peaks) hp
  exact ⟨a, t, mem_sortByTime.mp ha, mem_sortByTime.mp ht,
    by rw [he], by rw [he]⟩

/-- C8 (witness): the theorem applied to the concrete landmark list
`[(1,0,0), (2,1,0)]` and its single emitted pair. -/
theorem C8_anchor_time_witness :
    ∃ a t, a ∈ [Peak.mk 1 0 0, Peak.mk 2 1 0] ∧ t ∈ [Peak.mk 1 0 0, Peak.mk 2 1 0] ∧
      (create_hash 1 2 1, 0).1 = create_hash a.freq t.freq (t.time - a.time) ∧
      (create_hash 1 2 1, 0).2 = a.time :=
  C8_anchor_time [⟨1, 0, 0⟩, ⟨2, 1, 0⟩] none 7 5 (create_hash 1 2 1, 0) (by decide)

/-- The count carried by an optional counter item (0 when absent). -/
def optCount : Option (Int × Nat) → Nat
  | none => 0
  | some p => p.2

theorem optCount_pickLarger (acc : Option (Int × Nat)) (it : Int × Nat) :
    optCount (pickLarger acc it) = max (optCount acc) it.2 := by
  cases acc with
  | none => simp [pickLarger, optCount]
  | some b =>
    rw [pickLarger]
    by_cases h : b.2 < it.2
    · rw [if_pos h]; simp [optCount]; omega
    · rw [if_neg h]; simp [optCount]; omega

theorem optCount_foldl_pickLarger :
    ∀ (items : List (Int × Nat)) (acc : Option (Int × Nat)),
      optCount (items.foldl pickLarger acc) =
        max (optCount acc) (listMax (items.map (fun p => p.2))) := by
  intro items
  induction items with
  | nil => intro acc; simp [listMax]
  | cons it rest ih =>
    intro acc
    rw [List.foldl_cons, ih, optCount_pickLarger, List.map_cons]
    show _ = max (optCount acc) (max it.2 (listMax (rest.map (fun p => p.2))))
    omega

theorem le_listMax_of_mem {x : Nat} : ∀ {l : List Nat}, x ∈ l → x ≤ listMax l := by
  intro l
  induction l with
  | nil => intro h; simp at h
  | cons y ys ih =>
    intro h
    rcases List.mem_cons.mp h with h1 | h2
    · subst h1; show x ≤ max x (listMax ys); omega
    · have := ih h2; show x ≤ max y (listMax ys); omega

theorem listMax_le {m : Nat} : ∀ {l : List Nat}, (∀ x ∈ l, x ≤ m) → listMax l ≤ m := by
  intro l
  induction l with
  | nil => intro _; simp [listMax]
  | cons y ys ih =>
    intro h
    have h1 := h y (List.mem_cons_self y ys)
    have h2 := ih (fun x hx => h x (List.mem_cons_of_mem y hx))
    show max y (listMax ys) ≤ m
    omega

theorem mem_dedupIntAux {x : Int} :
    ∀ {l seen : List Int}, x ∈ dedupIntAux l seen ↔ x ∈ l ∧ x ∉ seen := by
  intro l
  induction l with
  | nil => intro seen; simp [dedupIntAux]
  | cons y ys ih =>
    intro seen
    rw [dedupIntAux]
    split
    · rename_i hy
      simp only [List.mem_cons, ih]
      constructor
      · rintro ⟨h1, h2⟩; exact ⟨Or.inr h1, h2⟩
      · rintro ⟨h1 | h1, h2⟩
        · subst h1; exact absurd hy h2
        · exact ⟨h1, h2⟩
    · rename_i hy
      simp only [List.mem_cons, ih]
      constructor
      · rintro (h1 | ⟨h1, h2⟩)
        · subst h1; exact ⟨Or.inl rfl, hy⟩
        · exact ⟨Or.inr h1, fun hc => h2 (Or.inr hc)⟩
      · rintro ⟨h1 | h1, h2⟩
        · exact Or.inl h1
        · by_cases hxy : x = y
          · exact Or.inl hxy
          · refine Or.inr ⟨h1, ?_⟩
            rintro (h3 | h3)
            · exact hxy h3
            · exact h2 h3

theorem support_eq_maxMult (l : List Int) : support_of l = maxMult l := by
  have hs : support_of l = optCount (mostCommon1 (counterItems l)) := by
    rw [support_of]
    cases mostCommon1 (counterItems l) <;> rfl
  rw [hs, mostCommon1, optCount_foldl_pickLarger]
  show max 0 (listMax ((counterItems l).map (fun p => p.2))) = maxMult l
  rw [Nat.max_comm, Nat.max_zero]
  have hmap : (counterItems l).map (fun p => p.2) =
      (dedupIntAux l []).map (fun x => l.count x) := by
    rw [counterItems, List.map_map]
    rfl
  rw [hmap, maxMult]
  apply Nat.le_antisymm
  · apply listMax_le
    intro c hc
    obtain ⟨x, hx, hcx⟩ := List.mem_map.mp hc
    subst hcx
    apply le_listMax_of_mem
    exact List.mem_map_of_mem _ ((mem_dedupIntAux.mp hx).1)
  · apply listMax_le
    intro c hc
    obtain ⟨x, hx, hcx⟩ := List.mem_map.mp hc
    subst hcx
    apply le_listMax_of_mem
    apply List.mem_map_of_mem
    rw [mem_dedupIntAux]
    exact ⟨hx, List.not_mem_nil x⟩

theorem dictOf_mem_of_eq_some {h : String} {t : Nat} :
    ∀ {l : List (String × Nat)}, dictOf l h = some t → (h, t) ∈ l := by
  intro l
  induction l with
  | nil => intro hd; simp [dictOf] at hd
  | cons p rest ih =>
    intro hd
    rw [dictOf] at hd
    cases hrec : dictOf rest h with
    | some u =>
      rw [hrec] at hd
      cases hd
      exact List.mem_cons_of_mem p (ih hrec)
    | none =>
      rw [hrec] at hd
      by_cases heq : h = p.1
      · rw [if_pos heq] at hd
        injection hd with ht
        have hpt : (h, t) = p := by rw [heq, ← ht]
        rw [hpt]
        exact List.mem_cons_self _ _
      · rw [if_neg heq] at hd
        cases hd

theorem dictOf_isSome_of_mem {h : String} {t : Nat} :
    ∀ {l : List (String × Nat)}, (h, t) ∈ l → ∃ u, dictOf l h = some u := by
  intro l
  induction l with
  | nil => intro hm; simp at hm
  | cons p rest ih =>
    intro hm
    rw [dictOf]
    cases hrec : dictOf rest h with
    | some u => exact ⟨u, rfl⟩
    | none =>
      rcases List.mem_cons.mp hm with h1 | h2
      · rw [← h1]
        simp
      · obtain ⟨u, hu⟩ := ih h2
        rw [hu] at hrec
        cases hrec

theorem dictOf_eq_of_functional {h : String} {t : Nat} {l : List (String × Nat)}
    (hm : (h, t) ∈ l)
    (hfun : ∀ p ∈ l, ∀ q ∈ l, p.1 = q.1 → p.2 = q.2) :
    dictOf l h = some t := by
  obtain ⟨u, hu⟩ := dictOf_isSome_of_mem hm
  have hmu : (h, u) ∈ l := dictOf_mem_of_eq_some hu
  have : u = t := hfun (h, u) hmu (h, t) hm rfl
  rw [hu, this]

theorem mem_insertByConf {x r : MatchResult} :
    ∀ {l : List MatchResult}, x ∈ insertByConf r l ↔ x = r ∨ x ∈ l := by
  intro l
  induction l with
  | nil => simp [insertByConf]
  | cons s ls ih =>
    rw [insertByConf]
    split
    · simp
    · rw [List.mem_cons, ih, List.mem_cons]
      tauto

theorem mem_sortByConfDesc {x : MatchResult} :
    ∀ {l : List MatchResult}, x ∈ sortByConfDesc l ↔ x ∈ l := by
  intro l
  induction l with
  | nil => simp [sortByConfDesc]
  | cons r ls ih =>
    rw [sortByConfDesc, mem_insertByConf, ih, List.mem_cons]

theorem scoreSong_eq_some {inputFps : List (String × Nat)} {table : List SongRow}
    {metaLookup : String → Option SpotifyMeta} {db : List FpRow} {sid : String}
    {r : MatchResult} (h : scoreSong inputFps table metaLookup db sid = some r) :
    song_offsets (dictOf inputFps) (songFps db sid) ≠ [] ∧
      get_song_details table metaLookup sid = some r.song_details ∧
      r.confidence = pyRound2 (raw_confidence
        (support_of (song_offsets (dictOf inputFps) (songFps db sid)))
        inputFps.length) := by
  rw [scoreSong] at h
  split at h
  · cases h
  · rename_i hne
    cases hd : get_song_details table metaLookup sid with
    | none => rw [hd] at h; cases h
    | some sd =>
      rw [hd] at h
      injection h with hr
      subst hr
      refine ⟨?_, rfl, rfl⟩
      intro hc
      rw [hc] at hne
      exact hne rfl

theorem mem_match_core {inputFps : List (String × Nat)} {table : List SongRow}
    {readOk : Bool} {metaLookup : String → Option SpotifyMeta} {r : MatchResult}
    (h : r ∈ match_core inputFps table readOk metaLookup) :
    ∃ sid, sid ∈ distinctSids (get_all_fingerprints table readOk) ∧
      scoreSong inputFps table metaLookup (get_all_fingerprints table readOk) sid = some r := by
  rw [match_core] at h
  split at h
  · cases h
  · obtain ⟨sid, hsid, hs⟩ := List.mem_filterMap.mp (mem_sortByConfDesc.mp h)
    exact ⟨sid, hsid, hs⟩

theorem get_song_spec {table : List SongRow} {mlk : String → Option SpotifyMeta}
    {sid : String} {sd : SongDetails} (h : get_song table mlk sid = some sd) :
    ∃ row, findRow table sid = some row ∧
      sd = ⟨row.spotify_ID, row.youtube_ID,
        ((mlk row.spotify_ID).getD ⟨"", "", "", "", "", ""⟩).title,
        ((mlk row.spotify_ID).getD ⟨"", "", "", "", "", ""⟩).artists,
        ((mlk row.spotify_ID).getD ⟨"", "", "", "", "", ""⟩).cover,
        ((mlk row.spotify_ID).getD ⟨"", "", "", "", "", ""⟩).album_name,
        ((mlk row.spotify_ID).getD ⟨"", "", "", "", "", ""⟩).release_date,
        ((mlk row.spotify_ID).getD ⟨"", "", "", "", "", ""⟩).duration_ms⟩ := by
  rw [get_song] at h
  split at h
  · cases h
  · rename_i row hf
    refine ⟨row, hf, ?_⟩
    injection h with h2
    exact h2.symm

theorem findRow_sid {sid : String} {row : SongRow} :
    ∀ {table : List SongRow}, findRow table sid = some row → row.spotify_ID = sid := by
  intro table
  induction table with
  | nil => intro h; cases h
  | cons r rs ih =>
    intro h
    rw [findRow] at h
    split at h
    · rename_i he
      injection h with h2
      rw [← h2]
      exact he
    · exact ih h

/-- C1 (corrected): as amended — for every query with a non-empty
fingerprint list, the confidence reported for a candidate track equals the
occurrence count of the single most frequent time offset among that track's
matching postings (`maxMult`), divided by the total number of query
fingerprint entries, times 100, rounded to two decimals.  The support count
counts matching *reference postings*, several of which can match one query
entry, so it is not bounded by the number of query entries and the
confidence can exceed 100 (see the counterexample). -/
theorem C1_confidence_formula (inputFps : List (String × Nat)) (table : List SongRow)
    (readOk : Bool) (metaLookup : String → Option SpotifyMeta) (r : MatchResult)
    (h : r ∈ match_core inputFps table readOk metaLookup) :
    ∃ sid, sid ∈ distinctSids (get_all_fingerprints table readOk) ∧
      song_offsets (dictOf inputFps) (songFps (get_all_fingerprints table readOk) sid) ≠ [] ∧
      r.confidence = pyRound2 (raw_confidence
        (maxMult (song_offsets (dictOf inputFps)
          (songFps (get_all_fingerprints table readOk) sid)))
        inputFps.length) := by
  obtain ⟨sid, hsid, hs⟩ := mem_match_core h
  obtain ⟨hne, _, hconf⟩ := scoreSong_eq_some hs
  exact ⟨sid, hsid, hne, by rw [hconf, support_eq_maxMult]⟩

/-- C1 (counterexample): a query with a single fingerprint entry matched
against a track holding two identical postings yields confidence 200: the
dominant offset occurs twice while the query has one entry, so
`support_count ≤ |query_entries|` and `confidence ≤ 100` both fail. -/
theorem C1_counterexample :
    (match_core [(create_hash 5 5 1, 2)]
        [⟨"T", "Y", 5, create_hash 5 5 1⟩, ⟨"T", "Y", 5, create_hash 5 5 1⟩]
        true (fun _ => some ⟨"t", "a", "c", "b", "r", "d"⟩)).map
        (fun x => x.confidence) = [200] ∧
      ¬ ((200 : ℚ) ≤ 100) := by
  constructor
  · with_unfolding_all rfl
  · decide

/-- C1 (witness): the formula theorem applied to a concrete one-track run
(query `[(create_hash 1 1 1, 0)]` against the matching single posting). -/
theorem C1_confidence_formula_witness :
    ∃ sid, sid ∈ distinctSids (get_all_fingerprints
        [⟨"T", "Y", 0, create_hash 1 1 1⟩] true) ∧
      song_offsets (dictOf [(create_hash 1 1 1, 0)])
        (songFps (get_all_fingerprints [⟨"T", "Y", 0, create_hash 1 1 1⟩] true) sid) ≠ [] ∧
      (MatchResult.mk ⟨"T", "Y", "t", "a", "c", "b", "r", "d"⟩ 100).confidence =
        pyRound2 (raw_confidence
          (maxMult (song_offsets (dictOf [(create_hash 1 1 1, 0)])
            (songFps (get_all_fingerprints [⟨"T", "Y", 0, create_hash 1 1 1⟩] true) sid)))
          [(create_hash 1 1 1, 0)].length) :=
  C1_confidence_formula [(create_hash 1 1 1, 0)] [⟨"T", "Y", 0, create_hash 1 1 1⟩]
    true (fun _ => some ⟨"t", "a", "c", "b", "r", "d"⟩)
    ⟨⟨"T", "Y", "t", "a", "c", "b", "r", "d"⟩, 100⟩ (by with_unfolding_all decide)

/-- C10 (confirmed): every candidate returned by `match` carries as its
`confidence` field the value `round(confidence, 2)`: the computed
confidence of its track rounded to two decimal places, hence always an
integer multiple of 1/100 (at most two digits after the decimal point) —
a quantization the specification does not mention. -/
theorem C10_round_two_decimals (inputFps : List (String × Nat)) (table : List SongRow)
    (readOk : Bool) (metaLookup : String → Option SpotifyMeta) (r : MatchResult)
    (h : r ∈ match_core inputFps table readOk metaLookup) :
    ∃ sid, sid ∈ distinctSids (get_all_fingerprints table readOk) ∧
      get_song_details table metaLookup sid = some r.song_details ∧
      r.confidence = pyRound2 (raw_confidence
        (support_of (song_offsets (dictOf inputFps)
          (songFps (get_all_fingerprints table readOk) sid)))
        inputFps.length) ∧
      ∃ m : ℤ, r.confidence = (m : ℚ) / 100 := by
  obtain ⟨sid, hsid, hs⟩ := mem_match_core h
  obtain ⟨_, hd, hconf⟩ := scoreSong_eq_some hs
  refine ⟨sid, hsid, hd, hconf, ⟨roundHalfEven (raw_confidence
    (support_of (song_offsets (dictOf inputFps)
      (songFps (get_all_fingerprints table readOk) sid)))
    inputFps.length * 100), ?_⟩⟩
  rw [hconf]
  rfl

/-- C10 (witness): a three-entry query with one matching posting yields the
computed confidence 100/3, reported as its two-decimal rounding 33.33. -/
theorem C10_round_two_decimals_witness :
    ∃ sid, sid ∈ distinctSids (get_all_fingerprints
        [⟨"T", "Y", 0, create_hash 0 0 1⟩] true) ∧
      get_song_details [⟨"T", "Y", 0, create_hash 0 0 1⟩]
        (fun _ => some ⟨"t", "a", "c", "b", "r", "d"⟩) sid =
        some (MatchResult.mk ⟨"T", "Y", "t", "a", "c", "b", "r", "d"⟩ (3333 / 100)).song_details ∧
      (MatchResult.mk ⟨"T", "Y", "t", "a", "c", "b", "r", "d"⟩ (3333 / 100)).confidence =
        pyRound2 (raw_confidence
          (support_of (song_offsets
            (dictOf [(create_hash 0 0 1, 0), (create_hash 0 0 2, 0), (create_hash 0 0 3, 0)])
            (songFps (get_all_fingerprints [⟨"T", "Y", 0, create_hash 0 0 1⟩] true) sid)))
          [(create_hash 0 0 1, 0), (create_hash 0 0 2, 0), (create_hash 0 0 3, 0)].length) ∧
      ∃ m : ℤ, (MatchResult.mk ⟨"T", "Y", "t", "a", "c", "b", "r", "d"⟩
        (3333 / 100)).confidence = (m : ℚ) / 100 :=
  C10_round_two_decimals
    [(create_hash 0 0 1, 0), (create_hash 0 0 2, 0), (create_hash 0 0 3, 0)]
    [⟨"T", "Y", 0, create_hash 0 0 1⟩] true
    (fun _ => some ⟨"t", "a", "c", "b", "r", "d"⟩)
    ⟨⟨"T", "Y", "t", "a", "c", "b", "r", "d"⟩, 3333 / 100⟩
    (by
      rw [show match_core
            [(create_hash 0 0 1, 0), (create_hash 0 0 2, 0), (create_hash 0 0 3, 0)]
            [⟨"T", "Y", 0, create_hash 0 0 1⟩] true
            (fun _ => some ⟨"t", "a", "c", "b", "r", "d"⟩)
          = [⟨⟨"T", "Y", "t", "a", "c", "b", "r", "d"⟩, 3333 / 100⟩] from by
            with_unfolding_all rfl]
      exact List.mem_cons_self _ _)

/-- C5 (corrected): as amended — a failing store read is swallowed by
`get_all_fingerprints` (which catches the sqlite error and returns the
empty list), so `match` returns the empty result list, *exactly* the value
it returns for a successful query against an empty catalog: the failure is
logged but not distinguishable in the return value. -/
theorem C5_error_as_empty (inputFps : List (String × Nat)) (table : List SongRow)
    (metaLookup : String → Option SpotifyMeta) :
    match_core inputFps table false metaLookup = [] ∧
      match_core inputFps [] true metaLookup = [] :=
  ⟨rfl, rfl⟩

/-- C5 (counterexample): with a non-empty store, a query whose store read
fails returns `[]` — and the same query with a successful read that merely
finds no matching hash also returns `[]`.  The two outcomes are the same
value, refuting "a store read error is never returned in the same form as
a successful no-match outcome". -/
theorem C5_counterexample :
    match_core [(create_hash 0 0 1, 0)] [⟨"T", "Y", 0, create_hash 0 0 2⟩] false
        (fun _ => some ⟨"t", "a", "c", "b", "r", "d"⟩) = [] ∧
      match_core [(create_hash 0 0 1, 0)] [⟨"T", "Y", 0, create_hash 0 0 2⟩] true
        (fun _ => some ⟨"t", "a", "c", "b", "r", "d"⟩) = [] :=
  ⟨rfl, by with_unfolding_all rfl⟩

/-- C6 (corrected): as amended — when the external metadata lookup fails
for a surviving candidate, the candidate is *not* excluded: `get_song`
catches the failure, substitutes an empty metadata dictionary, and the
candidate is returned with all six metadata fields as empty-string
placeholders (only a missing/unreadable track row excludes a candidate). -/
theorem C6_placeholder_metadata (inputFps : List (String × Nat)) (table : List SongRow)
    (metaLookup : String → Option SpotifyMeta) (r : MatchResult)
    (h : r ∈ match_core inputFps table true metaLookup)
    (hfail : metaLookup r.song_details.spotify_ID = none) :
    r.song_details.title = "" ∧ r.song_details.artists = "" ∧
      r.song_details.cover = "" ∧ r.song_details.album_name = "" ∧
      r.song_details.release_date = "" ∧ r.song_details.duration_ms = "" := by
  obtain ⟨sid, _, hs⟩ := mem_match_core h
  obtain ⟨_, hd, _⟩ := scoreSong_eq_some hs
  rw [get_song_details] at hd
  obtain ⟨row, _, hsd⟩ := get_song_spec hd
  have hsp : r.song_details.spotify_ID = row.spotify_ID := by rw [hsd]
  rw [hsp] at hfail
  rw [hsd]
  simp [hfail]

/-- C6 (counterexample): a track whose metadata lookup fails is still
returned — with empty-string placeholder metadata — contradicting "that
candidate is excluded from the returned result list entirely; no result
entry with partially resolved or placeholder metadata is ever returned". -/
theorem C6_counterexample :
    match_core [(create_hash 0 0 1, 2)] [⟨"T", "Y", 2, create_hash 0 0 1⟩] true
        (fun _ => none) =
      [⟨⟨"T", "Y", "", "", "", "", "", ""⟩, 100⟩] := by
  with_unfolding_all rfl

/-- C6 (witness): the amended theorem applied to a concrete run whose
metadata lookup fails. -/
theorem C6_placeholder_metadata_witness :
    (MatchResult.mk ⟨"A", "B", "", "", "", "", "", ""⟩ 100).song_details.title = "" ∧
      (MatchResult.mk ⟨"A", "B", "", "", "", "", "", ""⟩ 100).song_details.artists = "" ∧
      (MatchResult.mk ⟨"A", "B", "", "", "", "", "", ""⟩ 100).song_details.cover = "" ∧
      (MatchResult.mk ⟨"A", "B", "", "", "", "", "", ""⟩ 100).song_details.album_name = "" ∧
      (MatchResult.mk ⟨"A", "B", "", "", "", "", "", ""⟩ 100).song_details.release_date = "" ∧
      (MatchResult.mk ⟨"A", "B", "", "", "", "", "", ""⟩ 100).song_details.duration_ms = "" :=
  C6_placeholder_metadata [(create_hash 0 0 2, 3)] [⟨"A", "B", 3, create_hash 0 0 2⟩]
    (fun _ => none) ⟨⟨"A", "B", "", "", "", "", "", ""⟩, 100⟩
    (by with_unfolding_all decide) rfl

theorem executemany_ok {st2 : List SongRow} :
    ∀ {st rows : List SongRow} {failAt : Option Nat},
      executemany st rows failAt = .ok st2 → st2 = st ++ rows := by
  intro st rows
  induction rows generalizing st with
  | nil =>
    intro failAt h
    rw [executemany] at h
    injection h with h2
    rw [← h2, List.append_nil]
  | cons r rs ih =>
    intro failAt h
    match failAt with
    | none =>
      rw [executemany] at h
      rw [ih h]
      simp
    | some 0 => rw [executemany] at h; cases h
    | some (k + 1) =>
      rw [executemany] at h
      rw [ih h]
      simp

theorem executemany_none_ok :
    ∀ (rows st : List SongRow), executemany st rows none = .ok (st ++ rows) := by
  intro rows
  induction rows with
  | nil => intro st; rw [executemany, List.append_nil]
  | cons r rs ih =>
    intro st
    rw [executemany, ih (st ++ [r])]
    simp

/-- C9 (confirmed): every batch insert is all-or-nothing.  For every prior
store state, batch, connection outcome and sqlite failure point: either the
call commits — the new store state is exactly the old state followed by the
whole batch and the returned count is the batch size — or the store state
is unchanged and the count is 0; a partial batch is never observable.
Moreover, when the connection succeeds and the driver raises no error, the
commit outcome is the one that occurs. -/
theorem C9_batch_atomic (st fingerprints : List SongRow) (connOk : Bool)
    (failAt : Option Nat) :
    (save_fingerprints_batch st fingerprints connOk failAt =
        (st ++ fingerprints, fingerprints.length) ∨
      save_fingerprints_batch st fingerprints connOk failAt = (st, 0)) ∧
      (connOk = true → failAt = none →
        save_fingerprints_batch st fingerprints connOk failAt =
          (st ++ fingerprints, fingerprints.length)) := by
  constructor
  · rw [save_fingerprints_batch]
    split
    · right; rfl
    · split
      · right; rfl
      · cases hex : executemany st fingerprints failAt with
        | ok st2 => left; rw [executemany_ok hex]
        | error st3 => right; rfl
  · intro hc hf
    subst hc; subst hf
    rw [save_fingerprints_batch]
    split
    · rename_i he
      rw [List.isEmpty_iff] at he
      subst he
      simp
    · rw [executemany_none_ok]
      simp

/-- C9 (witness): the success conjunct applied to a concrete one-row batch
on an empty store. -/
theorem C9_batch_atomic_witness :
    save_fingerprints_batch [] [⟨"T", "Y", 0, "0x1"⟩] true none =
      ([⟨"T", "Y", 0, "0x1"⟩], 1) :=
  (C9_batch_atomic [] [⟨"T", "Y", 0, "0x1"⟩] true none).2 rfl rfl

theorem firstKeys_all_seen {tid : String} :
    ∀ {db : List FpRow} {seen : List String},
      (∀ r ∈ db, r.spotify_ID = tid) → tid ∈ seen → firstKeys db seen = [] := by
  intro db
  induction db with
  | nil => intro seen _ _; rfl
  | cons r rs ih =>
    intro seen hall hseen
    rw [firstKeys]
    have hr : r.spotify_ID = tid := hall r (List.mem_cons_self r rs)
    rw [if_pos (hr ▸ hseen)]
    exact ih (fun x hx => hall x (List.mem_cons_of_mem r hx)) hseen

theorem distinctSids_const {tid : String} {db : List FpRow}
    (hne : db ≠ []) (hall : ∀ r ∈ db, r.spotify_ID = tid) :
    distinctSids db = [tid] := by
  match db, hne with
  | r :: rs, _ =>
    rw [distinctSids, firstKeys]
    have hr : r.spotify_ID = tid := hall r (List.mem_cons_self r rs)
    rw [if_neg (by simp)]
    rw [hr]
    rw [firstKeys_all_seen (fun x hx => hall x (List.mem_cons_of_mem r hx))
      (hr ▸ List.mem_cons_self tid [])]

theorem songFps_map_const (tid : String) (fps : List (String × Nat)) :
    songFps (fps.map (fun p => FpRow.mk tid p.1 p.2)) tid = fps := by
  induction fps with
  | nil => rfl
  | cons p ps ih =>
    rw [songFps] at ih ⊢
    rw [List.map_cons, List.filterMap_cons]
    simp only [if_pos]
    simp only [ih]

theorem song_offsets_self {dict : String → Option Nat} :
    ∀ {fps : List (String × Nat)}, (∀ p ∈ fps, dict p.1 = some p.2) →
      song_offsets dict fps = List.replicate fps.length 0 := by
  intro fps
  induction fps with
  | nil => intro _; rfl
  | cons p ps ih =>
    intro hall
    rw [song_offsets, List.filterMap_cons]
    have hp : dict p.1 = some p.2 := hall p (List.mem_cons_self p ps)
    rw [hp]
    show ((p.2 : Int) - (p.2 : Int)) :: song_offsets dict ps = _
    rw [ih (fun x hx => hall x (List.mem_cons_of_mem p hx))]
    rw [List.length_cons, List.replicate_succ]
    congr 1
    omega

theorem listMax_replicate : ∀ (n m : Nat), listMax (List.replicate n m) = if n = 0 then 0 else m := by
  intro n
  induction n with
  | zero => intro m; rfl
  | succ k ih =>
    intro m
    rw [List.replicate_succ]
    show max m (listMax (List.replicate k m)) = _
    rw [ih m]
    by_cases hk : k = 0
    · subst hk; simp
    · rw [if_neg hk, if_neg (Nat.succ_ne_zero k)]
      omega

theorem support_of_replicate_zero (n : Nat) :
    support_of (List.replicate n 0) = n := by
  rw [support_eq_maxMult, maxMult]
  have hcount : (List.replicate n (0 : Int)).map
      (fun x => (List.replicate n (0 : Int)).count x) = List.replicate n n := by
    have : ∀ x ∈ List.replicate n (0 : Int),
        (List.replicate n (0 : Int)).count x = n := by
      intro x hx
      rw [List.eq_of_mem_replicate hx]
      rw [List.count_replicate]
      simp
    calc (List.replicate n (0 : Int)).map (fun x => (List.replicate n (0 : Int)).count x)
        = (List.replicate n (0 : Int)).map (fun _ => n) := List.map_congr_left this
      _ = List.replicate n n := by
          rw [List.map_const']
          simp
  rw [hcount, listMax_replicate]
  by_cases hn : n = 0
  · subst hn; rfl
  · rw [if_neg hn]

theorem raw_confidence_self {n : Nat} (hn : n ≠ 0) : raw_confidence n n = 100 := by
  rw [raw_confidence, if_pos (Nat.pos_of_ne_zero hn)]
  rw [div_self (by exact_mod_cast hn)]
  norm_num

theorem pyRound2_100 : pyRound2 100 = 100 := by
  with_unfolding_all rfl

theorem self_match_aux (fps : List (String × Nat)) (tid yid : String)
    (mlk : String → Option SpotifyMeta) (sm : SpotifyMeta)
    (hne : fps ≠ [])
    (hfun : ∀ p ∈ fps, ∀ q ∈ fps, p.1 = q.1 → p.2 = q.2)
    (hm : mlk tid = some sm) :
    match_core fps (fingerprint_rows tid yid fps) true mlk =
      [⟨⟨tid, yid, sm.title, sm.artists, sm.cover, sm.album_name,
        sm.release_date, sm.duration_ms⟩, 100⟩] := by
  obtain ⟨p, ps, rfl⟩ : ∃ p ps, fps = p :: ps := by
    cases fps with
    | nil => exact absurd rfl hne
    | cons a l => exact ⟨a, l, rfl⟩
  have hdb : get_all_fingerprints (fingerprint_rows tid yid (p :: ps)) true =
      (p :: ps).map (fun q => FpRow.mk tid q.1 q.2) := by
    rw [get_all_fingerprints, if_pos rfl, fingerprint_rows, List.map_map]
    rfl
  have hall : ∀ r ∈ (p :: ps).map (fun q => FpRow.mk tid q.1 q.2), r.spotify_ID = tid := by
    intro r hr
    obtain ⟨q, _, hq⟩ := List.mem_map.mp hr
    rw [← hq]
  have hdict : ∀ q ∈ p :: ps, dictOf (p :: ps) q.1 = some q.2 :=
    fun q hq => dictOf_eq_of_functional hq hfun
  have hlen : (p :: ps).length ≠ 0 := by simp
  have hfind : findRow (fingerprint_rows tid yid (p :: ps)) tid =
      some (SongRow.mk tid yid p.2 p.1) := by
    rw [fingerprint_rows, List.map_cons, findRow]
    exact if_pos rfl
  have hgs : get_song_details (fingerprint_rows tid yid (p :: ps)) mlk tid =
      some ⟨tid, yid, sm.title, sm.artists, sm.cover, sm.album_name,
        sm.release_date, sm.duration_ms⟩ := by
    rw [get_song_details, get_song, hfind]
    simp [hm]
  have hscore : scoreSong (p :: ps) (fingerprint_rows tid yid (p :: ps)) mlk
      ((p :: ps).map (fun q => FpRow.mk tid q.1 q.2)) tid =
      some ⟨⟨tid, yid, sm.title, sm.artists, sm.cover, sm.album_name,
        sm.release_date, sm.duration_ms⟩, 100⟩ := by
    rw [scoreSong, songFps_map_const, song_offsets_self hdict]
    rw [if_neg (by simp)]
    rw [support_of_replicate_zero, raw_confidence_self hlen, pyRound2_100, hgs]
  rw [match_core, hdb]
  rw [if_neg (by simp)]
  rw [distinctSids_const (by simp) hall]
  rw [show ([tid].filterMap (scoreSong (p :: ps) (fingerprint_rows tid yid (p :: ps)) mlk
      ((p :: ps).map (fun q => FpRow.mk tid q.1 q.2)))) =
    [⟨⟨tid, yid, sm.title, sm.artists, sm.cover, sm.album_name,
      sm.release_date, sm.duration_ms⟩, 100⟩] from by
    rw [List.filterMap_cons, hscore]
    rfl]
  rfl

/-- C4 (corrected): as amended — fingerprinting a landmark set and matching
the identical landmark set against an index holding exactly that track's
fingerprints yields that track with confidence exactly 100 *provided no two
generated fingerprint entries share a hash with different anchor times*.
(The matcher's query dict is last-wins per hash, so a duplicated hash with
two anchor times makes some self-offsets nonzero and the confidence drops
below 100 — see the counterexample.) -/
theorem C4_self_match (peaks : List Peak) (tid yid : String) (fanout maxTimeDelta : Nat)
    (mlk : String → Option SpotifyMeta) (sm : SpotifyMeta)
    (hne : (generate_hashes peaks none fanout maxTimeDelta).1 ≠ [])
    (hfun : ∀ p ∈ (generate_hashes peaks none fanout maxTimeDelta).1,
      ∀ q ∈ (generate_hashes peaks none fanout maxTimeDelta).1, p.1 = q.1 → p.2 = q.2)
    (hm : mlk tid = some sm) :
    match_core (generate_hashes peaks none fanout maxTimeDelta).1
      (fingerprint_rows tid yid (generate_hashes peaks (some tid) fanout maxTimeDelta).1)
      true mlk =
      [⟨⟨tid, yid, sm.title, sm.artists, sm.cover, sm.album_name,
        sm.release_date, sm.duration_ms⟩, 100⟩] :=
  self_match_aux (generate_hashes peaks none fanout maxTimeDelta).1 tid yid mlk sm
    hne hfun hm

/-- C4 (counterexample): the landmark set `(0,0), (0,1), (0,2)` (all
frequency bin 0) generates the same hash at anchor times 0 and 1; the
last-wins query dict maps that hash to time 1, one self-offset becomes -1,
and the self-match confidence is 66.67, not 100. -/
theorem C4_counterexample :
    (match_core (generate_hashes [⟨0, 0, 0⟩, ⟨0, 1, 0⟩, ⟨0, 2, 0⟩] none).1
        (fingerprint_rows "T" "Y"
          (generate_hashes [⟨0, 0, 0⟩, ⟨0, 1, 0⟩, ⟨0, 2, 0⟩] (some "T")).1)
        true (fun _ => some ⟨"t", "a", "c", "b", "r", "d"⟩)).map (fun r => r.confidence)
      = [6667 / 100] ∧ (6667 / 100 : ℚ) ≠ 100 :=
  ⟨by with_unfolding_all rfl, by norm_num⟩

/-- C4 (witness): the amended self-match theorem applied to the two-landmark
set `(0,0), (1,1)`, whose single fingerprint trivially satisfies the
distinct-hash hypothesis. -/
theorem C4_self_match_witness :
    match_core (generate_hashes [⟨0, 0, 0⟩, ⟨1, 1, 0⟩] none).1
      (fingerprint_rows "T" "Y" (generate_hashes [⟨0, 0, 0⟩, ⟨1, 1, 0⟩] (some "T")).1)
      true (fun _ => some ⟨"t", "a", "c", "b", "r", "d"⟩) =
      [⟨⟨"T", "Y", "t", "a", "c", "b", "r", "d"⟩, 100⟩] :=
  C4_self_match [⟨0, 0, 0⟩, ⟨1, 1, 0⟩] "T" "Y" 7 5
    (fun _ => some ⟨"t", "a", "c", "b", "r", "d"⟩) ⟨"t", "a", "c", "b", "r", "d"⟩
    (by decide) (by decide) rfl
